import Mathlib

/-!
Verification of RushTI (`RushTI.py`): a text-driven orchestrator that reads a
task file, splits its lines into batches separated by `wait` barrier lines,
and executes each batch's tasks concurrently against named TM1 service
instances.

The Python source is shallowly embedded below:
* pure string manipulation (`shlex.split`, `str.strip`, `str.lower`,
  `str.split`, Python `dict` updates) becomes executable Lean functions on
  `String` / `List Char`;
* Python exceptions become `Except PyErr`;
* the remote call `tm1.processes.execute` becomes an abstract
  `TM1Client.execute` function supplied by the environment;
* logging becomes an explicit list of emitted log events;
* the asyncio/ThreadPoolExecutor batch loop is modelled twice, in
  complementary ways: a deterministic denotation (`work_through_tasks`)
  giving the per-task results and the propagated exception, and a small-step
  scheduler (`Step`/`Reaches`) for the concurrency claims about dispatch
  order and the per-batch join barrier.
-/

/-! ## Python string primitives -/

/-- Whitespace characters stripped by Python `str.strip()` (ASCII range). -/
def pyIsSpace (c : Char) : Bool :=
  c.toNat = 32 || c.toNat = 9 || c.toNat = 10 || c.toNat = 13 || c.toNat = 11 || c.toNat = 12

/-- Drop leading and trailing characters satisfying `p` (Python `str.strip`). -/
def stripCharsList (p : Char → Bool) (cs : List Char) : List Char :=
  ((cs.dropWhile p).reverse.dropWhile p).reverse

/-- Python `str.strip()` (no argument: strips whitespace). -/
def pyStrip (s : String) : String :=
  String.mk (stripCharsList pyIsSpace s.toList)

/-- Python `str.strip('"')`: strips leading/trailing double-quote characters. -/
def pyStripQuotes (s : String) : String :=
  String.mk (stripCharsList (fun c => c == '\"') s.toList)

/-- Python `str.lower()` (ASCII case mapping, as in the task files). Core's
`Char.toLower` is exactly the ASCII mapping. -/
def pyLower (s : String) : String :=
  String.mk (s.toList.map Char.toLower)

/-- The value normalisation `value.strip('"').strip()` applied by
`extract_info_from_line` when storing a parameter. -/
def stripQW (s : String) : String :=
  pyStrip (pyStripQuotes s)

/-- Python `str.isdigit()` restricted to ASCII decimal digits. -/
def pyIsdigit (s : String) : Bool :=
  decide (s.toList ≠ []) && s.toList.all (fun c => 48 ≤ c.toNat && c.toNat ≤ 57)

/-- Python `int()` on a decimal digit string. -/
def pyInt (s : String) : Nat :=
  s.toList.foldl (fun acc c => acc * 10 + (c.toNat - 48)) 0

/-! ## Python exceptions -/

/-- The Python exceptions that can escape the embedded fragment. -/
inductive PyErr where
  | valueError (msg : String)
  | keyError (key : String)
deriving DecidableEq, Repr

/-! ## shlex.split (POSIX mode, whitespace splitting)

`extract_info_from_line` tokenizes each task line with `shlex.split`, i.e.
POSIX shell lexing: tokens are separated by whitespace, single quotes group
verbatim, double quotes group with backslash escaping `"` and `\`, a
backslash outside quotes escapes the next character.  An unterminated quote
or a trailing backslash raises `ValueError`. -/

/-- Lexer state for the POSIX shlex machine. -/
inductive LexSt where
  | delim
  | word
  | squote
  | dquote
deriving DecidableEq, Repr

/-- One step per character POSIX shlex machine. `acc` is the current token
(reversed), `toks` the finished tokens (reversed). -/
def shlexGo : LexSt → List Char → List String → List Char → Option (List String)
  | LexSt.delim, _, toks, [] => some toks.reverse
  | LexSt.word, acc, toks, [] => some (String.mk acc.reverse :: toks).reverse
  | LexSt.squote, _, _, [] => none
  | LexSt.dquote, _, _, [] => none
  | LexSt.delim, acc, toks, c :: rest =>
    if pyIsSpace c then shlexGo LexSt.delim acc toks rest
    else if c == '\'' then shlexGo LexSt.squote [] toks rest
    else if c == '\"' then shlexGo LexSt.dquote [] toks rest
    else if c == '\\' then
      match rest with
      | [] => none
      | d :: rest2 => shlexGo LexSt.word [d] toks rest2
    else shlexGo LexSt.word [c] toks rest
  | LexSt.word, acc, toks, c :: rest =>
    if pyIsSpace c then shlexGo LexSt.delim [] (String.mk acc.reverse :: toks) rest
    else if c == '\'' then shlexGo LexSt.squote acc toks rest
    else if c == '\"' then shlexGo LexSt.dquote acc toks rest
    else if c == '\\' then
      match rest with
      | [] => none
      | d :: rest2 => shlexGo LexSt.word (d :: acc) toks rest2
    else shlexGo LexSt.word (c :: acc) toks rest
  | LexSt.squote, acc, toks, c :: rest =>
    if c == '\'' then shlexGo LexSt.word acc toks rest
    else shlexGo LexSt.squote (c :: acc) toks rest
  | LexSt.dquote, acc, toks, c :: rest =>
    if c == '\"' then shlexGo LexSt.word acc toks rest
    else if c == '\\' then
      match rest with
      | [] => none
      | d :: rest2 =>
        if d == '\"' || d == '\\' then shlexGo LexSt.dquote (d :: acc) toks rest2
        else shlexGo LexSt.dquote (d :: '\\' :: acc) toks rest2
    else shlexGo LexSt.dquote (c :: acc) toks rest

/-- Python `shlex.split(line)`; `none` models the `ValueError` raised on an
unterminated quotation or trailing escape. -/
def shlexSplit (s : String) : Option (List String) :=
  shlexGo LexSt.delim [] [] s.toList

/-! ## Python dict (string keys, insertion ordered) -/

/-- The `parameters` dict built by `extract_info_from_line`: an insertion
ordered association list with unique keys. -/
abbrev Dict := List (String × String)

/-- Python `d[k] = v`: update the first entry with key `k` in place, else
append a new entry at the end. -/
def dictSet : Dict → String → String → Dict
  | [], k, v => [(k, v)]
  | q :: rest, k, v => if q.1 == k then (q.1, v) :: rest else q :: dictSet rest k v

/-- Python `d[k]` as an `Option`. -/
def dictLookup : Dict → String → Option String
  | [], _ => none
  | q :: rest, k => if q.1 == k then some q.2 else dictLookup rest k

/-- Python `d.pop(k)`: the removed value and the remaining dict; `none`
models the `KeyError` on a missing key. -/
def dictPop : Dict → String → Option (String × Dict)
  | [], _ => none
  | q :: rest, k =>
    if q.1 == k then some (q.2, rest)
    else (dictPop rest k).map (fun r => (r.1, q :: r.2))

/-! ## extract_info_from_line -/

/-- Python `str.split("=")` on the character list: split at every `=`. -/
def pySplitEqList : List Char → List (List Char)
  | [] => [[]]
  | c :: rest =>
    let r := pySplitEqList rest
    if c == '=' then [] :: r
    else
      match r with
      | [] => [[c]]
      | h :: t => (c :: h) :: t

/-- Python `pair.split("=")`. -/
def pySplitEq (s : String) : List String :=
  (pySplitEqList s.toList).map String.mk

/-- The key under which `extract_info_from_line` stores a `key=value` token:
`instance` and `process` are matched case-insensitively (and stored
lower-cased), every other key is kept case-sensitively. -/
def normKey (param : String) : String :=
  if pyLower param == "process" || pyLower param == "instance" then pyLower param else param

/-- One iteration of the `for pair in shlex.split(line)` loop of
`extract_info_from_line`: `param, value = pair.split("=")` (a `ValueError`
unless exactly two parts), then store `value.strip('"').strip()` under the
normalised key. -/
def addPair (parameters : Dict) (pair : String) : Except PyErr Dict :=
  match pySplitEq pair with
  | [param, value] =>
    if pyLower param == "process" || pyLower param == "instance" then
      Except.ok (dictSet parameters (pyLower param) (stripQW value))
    else
      Except.ok (dictSet parameters param (stripQW value))
  | _ => Except.error (PyErr.valueError "unpack")

/-- The token loop of `extract_info_from_line`, threading the `parameters`
dict; the first failing token raises. -/
def buildParamsFrom (parameters : Dict) : List String → Except PyErr Dict
  | [] => Except.ok parameters
  | pair :: rest =>
    match addPair parameters pair with
    | Except.ok d2 => buildParamsFrom d2 rest
    | Except.error e => Except.error e

/-- The `parameters` dict produced from the shlex tokens of a line. -/
def buildParams (toks : List String) : Except PyErr Dict :=
  buildParamsFrom [] toks

/-- `extract_info_from_line(line)`: shlex-tokenize, build the parameters
dict, then `parameters.pop("instance")` and `parameters.pop("process")`
(each a `KeyError` when absent). -/
def extract_info_from_line (line : String) :
    Except PyErr (String × String × Dict) := do
  let toks ← match shlexSplit line with
    | some t => Except.ok t
    | none => Except.error (PyErr.valueError "No closing quotation")
  let params ← buildParams toks
  match dictPop params "instance" with
  | none => Except.error (PyErr.keyError "instance")
  | some r1 =>
    match dictPop r1.2 "process" with
    | none => Except.error (PyErr.keyError "process")
    | some r2 => Except.ok (r1.1, r2.1, r2.2)

/-! ## execute_line -/

/-- Log levels used by `RushTI.py`. -/
inductive LogLevel where
  | info
  | error
deriving DecidableEq, Repr

/-- Terminal outcome of one task, abstracting the terminal log event written
by `execute_line` (blank lines produce no task and no event). -/
inductive Outcome where
  | blank
  | skipped (msg : String)
  | success (elapsed : String)
  | failure (msg : String)
deriving DecidableEq, Repr

/-- Abstract TM1 client: `execute proc params` models
`tm1.processes.execute(process_name, **parameters)`, returning the
response's elapsed time on success or the exception's message on failure. -/
structure TM1Client where
  execute : String → Dict → Except String String

/-- The service registry `tm1_services` (instance name to connected client). -/
abbrev Registry := List (String × TM1Client)

/-- Registry lookup, `instance_name in tm1_services` / subscript. -/
def regLookup : Registry → String → Option TM1Client
  | [], _ => none
  | q :: rest, k => if q.1 == k then some q.2 else regLookup rest k

/-- Join strings with a separator (structural `String.intercalate`). -/
def joinSep (sep : String) : List String → String
  | [] => ""
  | [x] => x
  | x :: rest => x ++ sep ++ joinSep sep rest

/-- Python `str(dict)` for a dict of strings (the parameters as they appear
in log messages). -/
def fmtParams (d : Dict) : String :=
  "\x7b" ++ joinSep ", " (d.map (fun q => "'" ++ q.1 ++ "': '" ++ q.2 ++ "'")) ++ "\x7d"

/-- Decidable equality for `Except` results (needed to settle concrete runs
by `decide`). -/
instance exceptDecEq {ε α : Type} [DecidableEq ε] [DecidableEq α] :
    DecidableEq (Except ε α) := fun a b =>
  match a, b with
  | Except.ok x, Except.ok y =>
    if h : x = y then isTrue (by rw [h]) else isFalse (by intro hc; cases hc; exact h rfl)
  | Except.error x, Except.error y =>
    if h : x = y then isTrue (by rw [h]) else isFalse (by intro hc; cases hc; exact h rfl)
  | Except.ok _, Except.error _ => isFalse (by intro hc; cases hc)
  | Except.error _, Except.ok _ => isFalse (by intro hc; cases hc)

/-- Observable effects of one `execute_line` call: its result (`Except.error`
when an exception escapes the function), the log lines it wrote, and the
remote calls it issued. -/
structure ExecR where
  result : Except PyErr Outcome
  logs : List (LogLevel × String)
  calls : List (String × String × Dict)
deriving DecidableEq, Repr

/-- `execute_line(line, tm1_services)`.  A blank line returns immediately.
`extract_info_from_line` runs outside any `try`, so its exceptions escape.
An absent instance logs an error and returns (Skipped).  Otherwise the
dispatch info line is logged and the remote call is issued inside
`try/except`: any exception is converted into a Failure log, success into a
Success log with the response's elapsed time. -/
def execute_line (line : String) (tm1_services : Registry) : ExecR :=
  if (pyStrip line).length = 0 then ⟨Except.ok Outcome.blank, [], []⟩
  else
    match extract_info_from_line line with
    | Except.error e => ⟨Except.error e, [], []⟩
    | Except.ok (instance_name, process_name, parameters) =>
      match regLookup tm1_services instance_name with
      | none =>
        let msg := "Process " ++ process_name ++ " not executed on " ++ instance_name ++
          ". " ++ instance_name ++ " not accessible."
        ⟨Except.ok (Outcome.skipped msg), [(LogLevel.error, msg)], []⟩
      | some tm1 =>
        let dispatchMsg := "Executing process: " ++ process_name ++ " with Parameters: " ++
          fmtParams parameters ++ " on instance: " ++ instance_name
        match tm1.execute process_name parameters with
        | Except.ok elapsed =>
          let okMsg := "Execution Successful: " ++ process_name ++ " with Parameters: " ++
            fmtParams parameters ++ " on instance: " ++ instance_name ++
            ". Elapsed time: " ++ elapsed
          ⟨Except.ok (Outcome.success elapsed),
            [(LogLevel.info, dispatchMsg), (LogLevel.info, okMsg)],
            [(instance_name, process_name, parameters)]⟩
        | Except.error e =>
          let failMsg := "Execution Failed. Process: " ++ process_name ++ ", Parameters: " ++
            fmtParams parameters ++ ", Error: " ++ e
          ⟨Except.ok (Outcome.failure e),
            [(LogLevel.info, dispatchMsg), (LogLevel.error, failMsg)],
            [(instance_name, process_name, parameters)]⟩

/-! ## Batch splitting (work_through_tasks, lines 140-141)

`line_sets = [list(y) for x, y in itertools.groupby(lines, lambda z: z.lower().strip() == 'wait') if not x]`
-/

/-- The barrier predicate of `work_through_tasks`:
`z.lower().strip() == 'wait'`. -/
def isWaitLine (z : String) : Bool :=
  pyStrip (pyLower z) == "wait"

/-- `itertools.groupby(l, key)` for a boolean key function: maximal runs of
elements with equal key, each tagged with its key, in encounter order. -/
def pyGroupBy {α : Type} (key : α → Bool) : List α → List (Bool × List α)
  | [] => []
  | a :: rest =>
    match pyGroupBy key rest with
    | [] => [(key a, [a])]
    | (k, g) :: gs =>
      if key a == k then (k, a :: g) :: gs
      else (key a, [a]) :: (k, g) :: gs

/-- The `line_sets` of `work_through_tasks`: groups of consecutive non-`wait`
lines, the `wait` groups dropped. -/
def line_sets (lines : List String) : List (List String) :=
  ((pyGroupBy isWaitLine lines).filter (fun q => !q.1)).map (fun q => q.2)

/-! ## The batch execution denotation

`work_through_tasks` iterates `line_sets` in order; for each it opens a
`ThreadPoolExecutor(max_workers=int(max_workers))` (which raises
`ValueError` when `max_workers` is 0), submits `execute_line` for every
line, and awaits every future in submission order.  All submitted tasks of
a batch run to completion; the first awaited future whose function raised
re-raises its exception, which escapes `work_through_tasks`, so no later
batch is started.  The denotation returns the per-line `ExecR`s of every
batch that was started, and the exception that escaped (if any). -/

/-- One batch: every submitted line executes; the propagated exception is
the first (in line order) escaping one. -/
def run_batch (tm1_services : Registry) (line_set : List String) :
    List ExecR × Option PyErr :=
  let rs := line_set.map (fun l => execute_line l tm1_services)
  (rs, rs.findSome? (fun r =>
    match r.result with
    | Except.error e => some e
    | Except.ok _ => none))

/-- The batch loop of `work_through_tasks` over the remaining `line_sets`. -/
def runLineSets (tm1_services : Registry) (mw : Nat) :
    List (List String) → List (List ExecR) × Option PyErr
  | [] => ([], none)
  | ls :: rest =>
    if mw = 0 then ([], some (PyErr.valueError "max_workers must be greater than 0"))
    else
      let rb := run_batch tm1_services ls
      match rb.2 with
      | some e => ([rb.1], some e)
      | none =>
        let r := runLineSets tm1_services mw rest
        (rb.1 :: r.1, r.2)

/-- `work_through_tasks(path, max_workers, tm1_services)` with the file's
lines given directly. -/
def work_through_tasks (lines : List String) (max_workers : String)
    (tm1_services : Registry) : List (List ExecR) × Option PyErr :=
  runLineSets tm1_services (pyInt max_workers) (line_sets lines)

/-! ## logout, CLI validation and the main driver -/

/-- `logout(tm1_services)`: calls `tm1.logout()` on every registry value;
returns the instances logged out, in registry order. -/
def logout (tm1_services : Registry) : List String :=
  tm1_services.map (fun q => q.1)

/-- `translate_cmd_arguments(*args)`; `isfile` abstracts
`os.path.isfile`. -/
def translate_cmd_arguments (isfile : String → Bool) (args : List String) :
    Except PyErr (String × String) :=
  if args.length < 3 then
    Except.error (PyErr.valueError "RushTI needs to be executed with two arguments.")
  else if !isfile (args.getD 1 "") then
    Except.error (PyErr.valueError "Argument 1 (path to file) invalid. File needs to exist.")
  else if !pyIsdigit (args.getD 2 "") then
    Except.error (PyErr.valueError "Argument 2 (max workers) invalid. Needs to be number.")
  else Except.ok (args.getD 1 "", args.getD 2 "")

/-- Outcome of the `__main__` block from the point where `tm1_services` has
been built: `loop.run_until_complete(work_through_tasks(...))` wrapped in
`try/finally logout(tm1_services)`. -/
structure MainRun where
  executed : List (List ExecR)
  runErr : Option PyErr
  loggedOut : List String
deriving Repr

/-- The `try: run_until_complete(...) finally: logout(...)` of `__main__`:
the run's results (normal or exceptional) together with the logout calls
performed on the way out. -/
def main_execution (lines : List String) (max_workers : String)
    (tm1_services : Registry) : MainRun :=
  let r := work_through_tasks lines max_workers tm1_services
  match r.2 with
  | none => ⟨r.1, none, logout tm1_services⟩
  | some e => ⟨r.1, some e, logout tm1_services⟩

/-! ## The concurrency model of the batch loop

For the ordering/barrier claims the batch loop of `work_through_tasks` is
modelled as a small-step scheduler over the batches produced by
`line_sets`.  Each task (one submitted `execute_line` future) is `pending`
(submitted, not yet picked up by a worker), `dispatched` (running on one of
the at most `N = int(max_workers)` pool workers), or `terminal` (its future
completed).  The loop body `for future in futures: await future` together
with the closing of the `with ThreadPoolExecutor(...)` block means the loop
can only move to the next batch (`adv`) once every task of the current
batch is terminal; tasks can only be picked up (`disp`) from the current
batch, at most `N` concurrently. -/

/-- Status of one submitted task. -/
inductive TStatus where
  | pending
  | dispatched
  | terminal
deriving DecidableEq, Repr

/-- Scheduler state: the statuses of every batch's tasks (in `line_sets`
order) and the index of the batch the loop is currently executing. -/
structure MState where
  batches : List (List TStatus)
  cur : Nat
deriving DecidableEq, Repr

/-- The statuses of batch `b`. -/
def batchOf (m : MState) (b : Nat) : List TStatus :=
  m.batches.getD b []

/-- The status of task `t` of batch `b`. -/
def statusOf (m : MState) (b t : Nat) : TStatus :=
  (batchOf m b).getD t TStatus.pending

/-- Number of tasks of a batch currently running on pool workers. -/
def runningCount (bs : List TStatus) : Nat :=
  (bs.filter (fun s => s == TStatus.dispatched)).length

/-- Overwrite the status of task `t` of batch `b`. -/
def setTask (m : MState) (b t : Nat) (st : TStatus) : MState :=
  ⟨m.batches.set b ((m.batches.getD b []).set t st), m.cur⟩

/-- Scheduler events: task `t` of batch `b` starts running (`disp`), its
future completes with a terminal result (`fin`), or the batch loop advances
past the join barrier to the next batch (`adv`). -/
inductive Ev where
  | disp (b t : Nat)
  | fin (b t : Nat)
  | adv
deriving DecidableEq, Repr

/-- Small-step transition of the batch loop with pool bound `N`.  `disp`
picks up a pending task of the current batch when a worker is free; `fin`
completes a running task; `adv` is the end of the `await` loop and of the
`with` block, possible only when every task of the current batch is
terminal. -/
inductive Step (N : Nat) : MState → Ev → MState → Prop where
  | disp (m : MState) (t : Nat) :
      m.cur < m.batches.length →
      t < (batchOf m m.cur).length →
      statusOf m m.cur t = TStatus.pending →
      runningCount (batchOf m m.cur) < N →
      Step N m (Ev.disp m.cur t) (setTask m m.cur t TStatus.dispatched)
  | fin (m : MState) (t : Nat) :
      t < (batchOf m m.cur).length →
      statusOf m m.cur t = TStatus.dispatched →
      Step N m (Ev.fin m.cur t) (setTask m m.cur t TStatus.terminal)
  | adv (m : MState) :
      m.cur < m.batches.length →
      (∀ st ∈ batchOf m m.cur, st = TStatus.terminal) →
      Step N m Ev.adv ⟨m.batches, m.cur + 1⟩

/-- Execution traces of the scheduler: `Reaches N m tr m'` means the batch
loop can go from state `m` to state `m'` producing the event list `tr`. -/
inductive Reaches (N : Nat) : MState → List Ev → MState → Prop where
  | refl (m : MState) : Reaches N m [] m
  | snoc (m1 m2 m3 : MState) (tr : List Ev) (e : Ev) :
      Reaches N m1 tr m2 → Step N m2 e m3 → Reaches N m1 (tr ++ [e]) m3

/-- Initial scheduler state for a task file: the batches of `line_sets`,
every task pending, the loop at batch 0. -/
def initState (lines : List String) : MState :=
  ⟨(line_sets lines).map (fun b => b.map (fun _ => TStatus.pending)), 0⟩

/-- Number of tasks (lines) of batch `i` of the task file. -/
def numTasks (lines : List String) (i : Nat) : Nat :=
  ((line_sets lines).getD i []).length

/-! ## Further definitions used by the theorems below -/

/-- Number of maximal runs of elements satisfying `p` (each run is counted
at its last element). -/
def countRuns {α : Type} (p : α → Bool) : List α → Nat
  | [] => 0
  | [a] => if p a then 1 else 0
  | a :: b :: rest => (if p a && !(p b) then 1 else 0) + countRuns p (b :: rest)

/-- A blank line in the sense of the specification: its stripped value is
empty.  (Spec-side definition, used to compare the specified batch count
with the implemented one.) -/
def isBlankLine (z : String) : Bool :=
  pyStrip z == ""

/-- The batch count asserted by the specification: the number of maximal
runs of lines that are neither barrier lines nor blank lines.  (Spec-side
definition, for comparison with `line_sets`.) -/
def specBatchCount (lines : List String) : Nat :=
  countRuns (fun z => !(isWaitLine z || isBlankLine z)) lines

/-- A client whose remote call always raises, for exercising the failure
path of `execute_line`. -/
def boomClient : TM1Client :=
  ⟨fun _ _ => Except.error "boom"⟩

/-! ## Helper lemmas: lists -/

/-- Reading an updated index. -/
theorem getD_set_self {α : Type} (l : List α) (i : Nat) (a d : α) (h : i < l.length) :
    (l.set i a).getD i d = a := by
  induction l generalizing i with
  | nil => simp at h
  | cons x xs ih =>
    cases i with
    | zero => simp [List.set]
    | succ j =>
      simp only [List.set, List.getD, List.get?]
      exact ih j (by simpa using h)

/-- Reading an index other than the updated one. -/
theorem getD_set_ne {α : Type} (l : List α) (i j : Nat) (a d : α) (h : i ≠ j) :
    (l.set i a).getD j d = l.getD j d := by
  induction l generalizing i j with
  | nil => simp [List.set]
  | cons x xs ih =>
    cases i with
    | zero =>
      cases j with
      | zero => exact absurd rfl h
      | succ k => simp [List.set, List.getD]
    | succ i' =>
      cases j with
      | zero => simp [List.set, List.getD]
      | succ k =>
        simp only [List.set, List.getD, List.get?]
        exact ih i' k (fun hc => h (by rw [hc]))

/-- An in-range `getD` is a member. -/
theorem getD_mem {α : Type} (l : List α) (i : Nat) (d : α) (h : i < l.length) :
    l.getD i d ∈ l := by
  induction l generalizing i with
  | nil => simp at h
  | cons x xs ih =>
    cases i with
    | zero => simp [List.getD]
    | succ j =>
      simp only [List.getD, List.get?]
      exact List.mem_cons_of_mem x (ih j (by simpa using h))

/-- Appending one element on the right is injective componentwise. -/
theorem snoc_inj {α : Type} {l1 l2 : List α} {a b : α}
    (h : l1 ++ [a] = l2 ++ [b]) : l1 = l2 ∧ a = b := by
  have hr := congrArg List.reverse h
  simp only [List.reverse_append, List.reverse_cons, List.reverse_nil,
    List.nil_append, List.singleton_append, List.cons.injEq] at hr
  exact ⟨by simpa using congrArg List.reverse hr.2, hr.1⟩

/-! ## Helper lemmas: pyGroupBy and line_sets -/

/-- The first group of a non-empty input starts with the first element and
carries its key. -/
theorem pyGroupBy_cons_head {α : Type} (key : α → Bool) (a : α) (l : List α) :
    ∃ g gs, pyGroupBy key (a :: l) = (key a, a :: g) :: gs := by
  cases hpg : pyGroupBy key l with
  | nil => exact ⟨[], [], by simp [pyGroupBy, hpg]⟩
  | cons q gs =>
    obtain ⟨k, g⟩ := q
    by_cases hk : key a = k
    · exact ⟨g, gs, by simp [pyGroupBy, hpg, hk]⟩
    · exact ⟨[], (k, g) :: gs, by simp [pyGroupBy, hpg, hk]⟩

/-- Unfolding `pyGroupBy` on a cons when the groups of the tail are known. -/
theorem pyGroupBy_cons_of_eq {α : Type} (key : α → Bool) (a : α) (l : List α)
    (k : Bool) (g : List α) (gs : List (Bool × List α))
    (h : pyGroupBy key l = (k, g) :: gs) :
    pyGroupBy key (a :: l)
      = if key a == k then (k, a :: g) :: gs else (key a, [a]) :: (k, g) :: gs := by
  unfold pyGroupBy
  rw [h]

/-- Concatenating all groups gives back the input. -/
theorem pyGroupBy_flatten {α : Type} (key : α → Bool) (l : List α) :
    ((pyGroupBy key l).map (fun q => q.2)).flatten = l := by
  induction l with
  | nil => rfl
  | cons a rest ih =>
    cases hpg : pyGroupBy key rest with
    | nil =>
      rw [hpg] at ih
      simp only [List.map_nil, List.flatten_nil] at ih
      simp [pyGroupBy, hpg, ← ih]
    | cons q gs =>
      obtain ⟨k, g⟩ := q
      rw [hpg] at ih
      rw [pyGroupBy_cons_of_eq key a rest k g gs hpg]
      simp only [List.map_cons, List.flatten_cons] at ih
      by_cases hk : key a = k
      · simp only [hk, beq_self_eq_true, if_true, List.map_cons, List.flatten_cons,
          List.cons_append]
        rw [ih]
      · simp only [beq_iff_eq, hk, if_false, List.map_cons, List.flatten_cons,
          List.singleton_append]
        rw [ih]
/-- Every group is non-empty and homogeneous for its key. -/
theorem pyGroupBy_mem {α : Type} (key : α → Bool) (l : List α) (q : Bool × List α)
    (hq : q ∈ pyGroupBy key l) : q.2 ≠ [] ∧ ∀ x ∈ q.2, key x = q.1 := by
  induction l generalizing q with
  | nil => simp [pyGroupBy] at hq
  | cons a rest ih =>
    cases hpg : pyGroupBy key rest with
    | nil =>
      rw [show pyGroupBy key (a :: rest) = [(key a, [a])] by simp [pyGroupBy, hpg]] at hq
      simp only [List.mem_singleton] at hq
      subst hq
      exact ⟨by simp, by simp⟩
    | cons p gs =>
      obtain ⟨k, g⟩ := p
      by_cases hk : key a = k
      · rw [show pyGroupBy key (a :: rest) = (k, a :: g) :: gs by
          simp [pyGroupBy, hpg, hk]] at hq
        rcases List.mem_cons.mp hq with hq1 | hq2
        · subst hq1
          have hmem : (k, g) ∈ pyGroupBy key rest := by rw [hpg]; exact List.mem_cons_self _ _
          have := ih (k, g) hmem
          refine ⟨by simp, ?_⟩
          intro x hx
          rcases List.mem_cons.mp hx with rfl | hx2
          · exact hk
          · exact this.2 x hx2
        · exact ih q (by rw [hpg]; exact List.mem_cons_of_mem _ hq2)
      · rw [show pyGroupBy key (a :: rest) = (key a, [a]) :: (k, g) :: gs by
          simp [pyGroupBy, hpg, hk]] at hq
        rcases List.mem_cons.mp hq with hq1 | hq2
        · subst hq1
          exact ⟨by simp, by simp⟩
        · exact ih q (by rw [hpg]; exact hq2)

/-- The number of kept groups is the number of maximal runs of non-key
elements. -/
theorem pyGroupBy_filter_length {α : Type} (key : α → Bool) (l : List α) :
    ((pyGroupBy key l).filter (fun q => !q.1)).length
      = countRuns (fun x => !key x) l := by
  induction l with
  | nil => rfl
  | cons a rest ih =>
    cases rest with
    | nil => cases hka : key a <;> simp [pyGroupBy, countRuns, hka]
    | cons b rest2 =>
      obtain ⟨g, gs, hpg⟩ := pyGroupBy_cons_head key b rest2
      rw [hpg] at ih
      rw [pyGroupBy_cons_of_eq key a (b :: rest2) (key b) (b :: g) gs hpg]
      rw [show countRuns (fun x => !key x) (a :: b :: rest2)
          = (if (!key a) && !(!key b) then 1 else 0)
            + countRuns (fun x => !key x) (b :: rest2) by rfl]
      rw [← ih]
      cases hka : key a <;> cases hkb : key b <;>
        simp_all [List.filter_cons, Nat.add_comm]

/-- Concatenating the kept groups gives the non-key elements in order. -/
theorem pyGroupBy_flatten_filter {α : Type} (key : α → Bool) (l : List α) :
    (((pyGroupBy key l).filter (fun q => !q.1)).map (fun q => q.2)).flatten
      = l.filter (fun x => !key x) := by
  induction l with
  | nil => rfl
  | cons a rest ih =>
    cases rest with
    | nil => cases hka : key a <;> simp [pyGroupBy, List.filter_cons, hka]
    | cons b rest2 =>
      obtain ⟨g, gs, hpg⟩ := pyGroupBy_cons_head key b rest2
      rw [hpg] at ih
      rw [pyGroupBy_cons_of_eq key a (b :: rest2) (key b) (b :: g) gs hpg]
      cases hka : key a <;> cases hkb : key b <;>
        simp_all [List.filter_cons]

/-- Every batch of `line_sets` is non-empty and contains no barrier line. -/
theorem line_sets_mem (lines : List String) (b : List String)
    (hb : b ∈ line_sets lines) : b ≠ [] ∧ ∀ z ∈ b, isWaitLine z = false := by
  unfold line_sets at hb
  rcases List.mem_map.mp hb with ⟨q, hqf, rfl⟩
  have hqm := List.mem_filter.mp hqf
  have hmem := pyGroupBy_mem isWaitLine lines q hqm.1
  refine ⟨hmem.1, fun z hz => ?_⟩
  have := hmem.2 z hz
  have hq1 : q.1 = false := by
    have := hqm.2
    simpa using this
  rw [this, hq1]

/-! ## Helper lemmas: strings, dicts, parameter building -/

/-- Unpacking `String.mk`. -/
theorem toList_mk (l : List Char) : (String.mk l).toList = l := rfl

/-- Evaluating `Char.ofNat` below the surrogate range. -/
theorem char_toNat_ofNat_small (n : Nat) (h : n < 55296) : (Char.ofNat n).toNat = n := by
  unfold Char.ofNat
  rw [dif_pos (Or.inl (by omega : n < 55296))]
  rfl

/-- ASCII lower-casing does not change whether a character is whitespace. -/
theorem pyIsSpace_toLower (c : Char) : pyIsSpace (Char.toLower c) = pyIsSpace c := by
  unfold Char.toLower
  by_cases h : c.toNat ≥ 65 ∧ c.toNat ≤ 90
  · rw [if_pos h]
    obtain ⟨h1, h2⟩ := h
    have hn : (Char.ofNat (c.toNat + 32)).toNat = c.toNat + 32 :=
      char_toNat_ofNat_small _ (by omega)
    have ha : pyIsSpace c = false := by simp [pyIsSpace]; omega
    have hb : pyIsSpace (Char.ofNat (c.toNat + 32)) = false := by
      simp [pyIsSpace, hn]; omega
    rw [ha, hb]
  · rw [if_neg h]

/-- `lower` then `strip` equals `strip` then `lower`: the source's barrier
test and the spec's "trimmed, case-folded" wording agree. -/
theorem pyStrip_pyLower_comm (z : String) : pyStrip (pyLower z) = pyLower (pyStrip z) := by
  unfold pyStrip pyLower stripCharsList
  rw [toList_mk, toList_mk]
  have hpf : (pyIsSpace ∘ Char.toLower) = pyIsSpace := funext pyIsSpace_toLower
  rw [List.dropWhile_map, hpf, ← List.map_reverse, List.dropWhile_map, hpf,
    ← List.map_reverse]
  rfl

/-- Looking up the key just set returns the new value (Python: assignment
overwrites; the last occurrence of a key wins). -/
theorem dictLookup_dictSet_self (d : Dict) (k v : String) :
    dictLookup (dictSet d k v) k = some v := by
  induction d with
  | nil => simp [dictSet, dictLookup]
  | cons q rest ih =>
    by_cases h : q.1 = k
    · simp [dictSet, dictLookup, h]
    · simp [dictSet, dictLookup, h, ih]

/-- Extending the token list by one token feeds the accumulated dict to
`addPair`. -/
theorem buildParamsFrom_append (ts : List String) (x : String) :
    ∀ d d2 : Dict, buildParamsFrom d ts = Except.ok d2 →
      buildParamsFrom d (ts ++ [x]) = addPair d2 x := by
  induction ts with
  | nil =>
    intro d d2 h
    simp only [buildParamsFrom] at h
    cases h
    show buildParamsFrom d [x] = addPair d x
    simp only [buildParamsFrom]
    cases haddp : addPair d x with
    | ok d3 => simp [buildParamsFrom]
    | error e => rfl
  | cons p rest ih =>
    intro d d2 h
    simp only [buildParamsFrom] at h ⊢
    cases haddp : addPair d p with
    | ok d3 =>
      rw [haddp] at h
      exact ih d3 d2 h
    | error e => rw [haddp] at h; cases h

/-- `addPair` on a well-split `key=value` token stores the stripped value
under the normalised key. -/
theorem addPair_eq_token (d : Dict) (k v : String)
    (h : pySplitEq (k ++ "=" ++ v) = [k, v]) :
    addPair d (k ++ "=" ++ v) = Except.ok (dictSet d (normKey k) (stripQW v)) := by
  unfold addPair normKey
  rw [h]
  by_cases hk : (pyLower k == "process" || pyLower k == "instance") = true <;>
    simp [hk]

/-! ## Claim C2 -/

/-- Claim C2 (counterexample): the claim says a malformed task line (here
`process="P1"`, missing `instance`) is logged as a ParseError, dropped, and
the run continues.  In the code the `KeyError` escapes `execute_line`
(nothing is logged), propagates through the awaited future, and aborts the
run: only the first batch executes. -/
theorem C2_counterexample :
    (execute_line "process=\"P1\"" []).result = Except.error (PyErr.keyError "instance")
    ∧ (execute_line "process=\"P1\"" []).logs = []
    ∧ (work_through_tasks ["process=\"P1\"", "wait", "instance=A process=P1"] "1" []).2
        = some (PyErr.keyError "instance")
    ∧ (work_through_tasks ["process=\"P1\"", "wait", "instance=A process=P1"] "1" []).1.length
        = 1 := by
  refine ⟨?_, ?_, ?_, ?_⟩ <;> decide

/-- Claim C2 (amended): a malformed task line — a token that is not
`key=value` or a missing `instance`/`process` key — raises an exception
that escapes `execute_line` uncaught and unlogged; every task of the same
batch still executes (all futures were already submitted), but the
exception re-raised by the batch's await loop aborts the run before any
later batch starts. -/
theorem malformed_line_exception_escapes :
    (∀ (line : String) (tm1_services : Registry) (e : PyErr),
      ¬ (pyStrip line).length = 0 →
      extract_info_from_line line = Except.error e →
      execute_line line tm1_services = ⟨Except.error e, [], []⟩)
    ∧ (∀ (tm1_services : Registry) (ls : List String),
      (run_batch tm1_services ls).1 = ls.map (fun l => execute_line l tm1_services))
    ∧ ∀ (tm1_services : Registry) (mw : Nat) (ls : List String)
        (rest : List (List String)) (e : PyErr),
        ¬ mw = 0 → (run_batch tm1_services ls).2 = some e →
        runLineSets tm1_services mw (ls :: rest)
          = ([(run_batch tm1_services ls).1], some e) := by
  refine ⟨?_, fun _ _ => rfl, ?_⟩
  · intro line reg e h0 hex
    simp only [execute_line, if_neg h0, hex]
  · intro reg mw ls rest e hmw hrb
    simp only [runLineSets, if_neg hmw, hrb]

/-- Witness for C2 (amended) at the token `x` (no `=` sign): the
`ValueError` escapes unlogged. -/
theorem malformed_line_exception_escapes_witness :
    execute_line "x" [] = ⟨Except.error (PyErr.valueError "unpack"), [], []⟩ :=
  malformed_line_exception_escapes.1 "x" [] (PyErr.valueError "unpack")
    (by decide) (by decide)

/-! ## Claim C3 -/

/-- Claim C3 (counterexample): the claim says the batch count equals the
number of maximal runs of lines that are neither barriers nor blank, and
that blank lines adjacent to barriers produce no batch.  A single blank
line produces one batch though it contains no non-blank run, and a blank
line after a `wait` produces a batch. -/
theorem C3_counterexample :
    (line_sets [""]).length = 1 ∧ specBatchCount [""] = 0
    ∧ (line_sets ["wait", ""]).length = 1 ∧ specBatchCount ["wait", ""] = 0 := by
  refine ⟨?_, ?_, ?_, ?_⟩ <;> decide

/-- Claim C3 (amended): the number of batches equals the number of maximal
runs of non-barrier lines (blank lines are not separators at split time:
they stay inside batches), and no empty batch is ever emitted. -/
theorem line_sets_batch_count :
    (∀ lines : List String,
      (line_sets lines).length = countRuns (fun z => !isWaitLine z) lines)
    ∧ ∀ (lines : List String) (b : List String), b ∈ line_sets lines → b ≠ [] := by
  constructor
  · intro lines
    unfold line_sets
    rw [List.length_map]
    exact pyGroupBy_filter_length isWaitLine lines
  · intro lines b hb
    exact (line_sets_mem lines b hb).1

/-- Witness for C3 (amended): the only batch of the file `a`, `wait` is
non-empty. -/
theorem line_sets_batch_count_witness : (["a"] : List String) ≠ [] :=
  line_sets_batch_count.2 ["a", "wait"] ["a"] (by decide)

/-! ## Claim C4 -/

/-- Claim C4: a line is a barrier iff its trimmed, case-folded value equals
`wait` (the source computes `z.lower().strip()`, which agrees); `WAIT` and
` wait ` are barriers; barrier lines are consumed (no batch contains one,
and concatenating the batches gives exactly the non-barrier lines in file
order); consecutive barriers never produce an empty batch (every batch is
non-empty). -/
theorem wait_barrier_semantics :
    (∀ z : String, isWaitLine z = (pyLower (pyStrip z) == "wait"))
    ∧ isWaitLine "WAIT" = true
    ∧ isWaitLine " wait " = true
    ∧ (∀ (lines : List String) (b : List String), b ∈ line_sets lines →
        b ≠ [] ∧ ∀ z ∈ b, isWaitLine z = false)
    ∧ ∀ lines : List String,
        (line_sets lines).flatten = lines.filter (fun z => !isWaitLine z) := by
  refine ⟨?_, by decide, by decide, line_sets_mem, ?_⟩
  · intro z
    unfold isWaitLine
    rw [pyStrip_pyLower_comm]
  · intro lines
    unfold line_sets
    exact pyGroupBy_flatten_filter isWaitLine lines

/-- Witness for C4: the batch after the barrier in the file `wait`, `b` is
non-empty and contains no barrier line. -/
theorem wait_barrier_semantics_witness :
    (["b"] : List String) ≠ [] ∧ isWaitLine "b" = false :=
  ⟨(wait_barrier_semantics.2.2.2.1 ["wait", "b"] ["b"] (by decide)).1,
   (wait_barrier_semantics.2.2.2.1 ["wait", "b"] ["b"] (by decide)).2 "b" (by decide)⟩

/-! ## Claim C5 -/

/-- Claim C5: for a task whose line parses and whose instance is in the
registry, the remote call runs inside `try/except`: an exception becomes a
Failure result carrying the error's message, success becomes a Success
result with the call's elapsed duration, and in either case `execute_line`
returns normally (`Except.ok`), so nothing propagates to sibling tasks,
the batch join, or later batches. -/
theorem execute_line_remote_error_isolated
    (line : String) (tm1_services : Registry)
    (instance_name process_name : String) (parameters : Dict) (tm1 : TM1Client)
    (h0 : ¬ (pyStrip line).length = 0)
    (hex : extract_info_from_line line
      = Except.ok (instance_name, process_name, parameters))
    (hreg : regLookup tm1_services instance_name = some tm1) :
    (∀ e, tm1.execute process_name parameters = Except.error e →
      (execute_line line tm1_services).result = Except.ok (Outcome.failure e))
    ∧ (∀ t, tm1.execute process_name parameters = Except.ok t →
      (execute_line line tm1_services).result = Except.ok (Outcome.success t))
    ∧ ∃ o, (execute_line line tm1_services).result = Except.ok o := by
  refine ⟨fun e he => ?_, fun t ht => ?_, ?_⟩
  · simp only [execute_line, if_neg h0, hex, hreg, he]
  · simp only [execute_line, if_neg h0, hex, hreg, ht]
  · cases hexec : tm1.execute process_name parameters with
    | ok t =>
      exact ⟨Outcome.success t, by simp only [execute_line, if_neg h0, hex, hreg, hexec]⟩
    | error e =>
      exact ⟨Outcome.failure e, by simp only [execute_line, if_neg h0, hex, hreg, hexec]⟩

/-- Witness for C5: a client whose call raises is recorded as a Failure
with the raised message. -/
theorem execute_line_remote_error_isolated_witness :
    (execute_line "instance=A process=P1" [("A", boomClient)]).result
      = Except.ok (Outcome.failure "boom") :=
  (execute_line_remote_error_isolated "instance=A process=P1" [("A", boomClient)]
    "A" "P1" [] boomClient (by decide) (by decide) rfl).1 "boom" rfl

/-! ## Claim C6 -/

/-- Claim C6: a task whose instance is absent from the registry is recorded
as Skipped with the "not accessible" message, exactly one error log line is
written, and no remote call is issued. -/
theorem execute_line_absent_instance_skipped
    (line : String) (tm1_services : Registry)
    (instance_name process_name : String) (parameters : Dict)
    (h0 : ¬ (pyStrip line).length = 0)
    (hex : extract_info_from_line line
      = Except.ok (instance_name, process_name, parameters))
    (hreg : regLookup tm1_services instance_name = none) :
    execute_line line tm1_services =
      ⟨Except.ok (Outcome.skipped ("Process " ++ process_name ++ " not executed on "
          ++ instance_name ++ ". " ++ instance_name ++ " not accessible.")),
        [(LogLevel.error, "Process " ++ process_name ++ " not executed on "
          ++ instance_name ++ ". " ++ instance_name ++ " not accessible.")],
        []⟩ := by
  simp only [execute_line, if_neg h0, hex, hreg]

/-- Witness for C6 on a task naming the unknown instance `A` against the
empty registry. -/
theorem execute_line_absent_instance_skipped_witness :
    execute_line "instance=A process=P1" [] =
      ⟨Except.ok (Outcome.skipped "Process P1 not executed on A. A not accessible."),
        [(LogLevel.error, "Process P1 not executed on A. A not accessible.")],
        []⟩ := by
  exact execute_line_absent_instance_skipped "instance=A process=P1" [] "A" "P1" []
    (by decide) (by decide) rfl

/-! ## Claim C7 -/

/-- Claim C7: parsing tokenizes with shell-style lexing, so a quoted
substring with spaces stays one token and `pName` gets the value exactly
`hello world`; `instance`/`process` are matched case-insensitively and
extracted; every other key is kept case-sensitively in the parameter map;
surrounding quotes and whitespace are stripped from stored values (the
normalisation applied to every well-split `key=value` token). -/
theorem extract_parsing_semantics :
    extract_info_from_line "instance=\"A\" process=\"P1\" pName=\"hello world\""
        = Except.ok ("A", "P1", [("pName", "hello world")])
    ∧ shlexSplit "pName=\"hello world\"" = some ["pName=hello world"]
    ∧ extract_info_from_line "INSTANCE=\"A\" Process=\"P1\"" = Except.ok ("A", "P1", [])
    ∧ extract_info_from_line "instance=A process=P1 PNAME=x pName=y"
        = Except.ok ("A", "P1", [("PNAME", "x"), ("pName", "y")])
    ∧ normKey "INSTANCE" = "instance"
    ∧ normKey "Process" = "process"
    ∧ normKey "pName" = "pName"
    ∧ stripQW "\" hello world \"" = "hello world"
    ∧ ∀ (d : Dict) (k v : String), pySplitEq (k ++ "=" ++ v) = [k, v] →
        addPair d (k ++ "=" ++ v) = Except.ok (dictSet d (normKey k) (stripQW v)) := by
  refine ⟨by decide, by decide, by decide, by decide, by decide, by decide, by decide,
    by decide, ?_⟩
  exact fun d k v h => addPair_eq_token d k v h

/-- Witness for C7: the token normalisation at a concrete token. -/
theorem extract_parsing_semantics_witness :
    addPair [] ("pN" ++ "=" ++ "\"x\"") = Except.ok [("pN", "x")] :=
  extract_parsing_semantics.2.2.2.2.2.2.2.2 [] "pN" "\"x\"" (by decide)

/-! ## Claim C8 -/

/-- Claim C8: after the registry is built, `logout` runs on every connected
instance on every exit path of the run — the `try/finally` means the
logged-out set equals the full registry whether `work_through_tasks`
returned normally or raised. -/
theorem main_execution_always_logout
    (lines : List String) (max_workers : String) (tm1_services : Registry) :
    (main_execution lines max_workers tm1_services).loggedOut
        = tm1_services.map (fun q => q.1)
    ∧ (main_execution lines max_workers tm1_services).loggedOut = logout tm1_services := by
  unfold main_execution logout
  cases h : (work_through_tasks lines max_workers tm1_services).2 <;> simp [h]

/-! ## Claim C9 -/

/-- Claim C9: `translate_cmd_arguments` accepts any digit string as the
max-workers argument, in particular `"0"`, so validation passes and the
run proceeds; the failure happens only when the pool for the first batch
is created: `ThreadPoolExecutor(max_workers=0)` raises `ValueError` before
any task runs. -/
theorem zero_max_workers_validation_passes :
    (∀ (isfile : String → Bool) (prog path mw : String),
      isfile path = true → pyIsdigit mw = true →
      translate_cmd_arguments isfile [prog, path, mw] = Except.ok (path, mw))
    ∧ pyIsdigit "0" = true
    ∧ ∀ (lines : List String) (tm1_services : Registry)
        (b : List String) (bs : List (List String)),
        line_sets lines = b :: bs →
        work_through_tasks lines "0" tm1_services
          = ([], some (PyErr.valueError "max_workers must be greater than 0")) := by
  refine ⟨?_, by decide, ?_⟩
  · intro isfile prog path mw hfile hdigit
    simp [translate_cmd_arguments, hfile, hdigit]
  · intro lines reg b bs hls
    unfold work_through_tasks
    rw [hls, show pyInt "0" = 0 from rfl]
    rfl

/-- Witness for C9: argument `"0"` with an existing file passes validation,
and a one-task file with max workers `"0"` fails at pool creation with no
task executed. -/
theorem zero_max_workers_validation_passes_witness :
    translate_cmd_arguments (fun _ => true) ["RushTI.py", "tasks.txt", "0"]
        = Except.ok ("tasks.txt", "0")
    ∧ work_through_tasks ["instance=A process=P1"] "0" []
        = ([], some (PyErr.valueError "max_workers must be greater than 0")) :=
  ⟨zero_max_workers_validation_passes.1 (fun _ => true) "RushTI.py" "tasks.txt" "0"
      rfl (by decide),
   zero_max_workers_validation_passes.2.2 ["instance=A process=P1"] []
      ["instance=A process=P1"] [] (by decide)⟩

/-! ## Claim C10 -/

/-- Claim C10: when a line repeats a key (normalised case-insensitively for
`instance`/`process`, case-sensitively otherwise), each later occurrence
silently overwrites the dict entry of the earlier one — no error is
reported and the key ends up mapped to the last occurrence's value. -/
theorem duplicate_key_last_wins
    (ts : List String) (k v : String) (d : Dict)
    (h1 : buildParams ts = Except.ok d)
    (h2 : pySplitEq (k ++ "=" ++ v) = [k, v]) :
    buildParams (ts ++ [k ++ "=" ++ v]) = Except.ok (dictSet d (normKey k) (stripQW v))
    ∧ dictLookup (dictSet d (normKey k) (stripQW v)) (normKey k) = some (stripQW v) := by
  constructor
  · unfold buildParams at h1 ⊢
    rw [buildParamsFrom_append ts (k ++ "=" ++ v) [] d h1, addPair_eq_token d k v h2]
  · exact dictLookup_dictSet_self d (normKey k) (stripQW v)

/-- Witness for C10: `pName=1 pName=2` keeps only `pName=2`, without an
error. -/
theorem duplicate_key_last_wins_witness :
    buildParams ["pName=1", "pName=2"] = Except.ok [("pName", "2")] := by
  exact (duplicate_key_last_wins ["pName=1"] "pName" "2" [("pName", "1")]
    (by decide) (by decide)).1

/-! ## Helper lemmas: the scheduler -/

/-- Out-of-range `getD` gives the default. -/
theorem getD_eq_of_le {α : Type} (l : List α) (i : Nat) (d : α) (h : l.length ≤ i) :
    l.getD i d = d := by
  induction l generalizing i with
  | nil => simp [List.getD]
  | cons x xs ih =>
    cases i with
    | zero => simp at h
    | succ j =>
      simp only [List.getD, List.get?]
      exact ih j (by simpa using h)

/-- The status lists of `initState` have the lengths of the batches. -/
theorem length_getD_map_statuses (L : List (List String)) (b : Nat) :
    ((L.map (fun bl => bl.map (fun _ => TStatus.pending))).getD b []).length
      = (L.getD b []).length := by
  induction L generalizing b with
  | nil => simp [List.getD]
  | cons x xs ih =>
    cases b with
    | zero => simp [List.getD]
    | succ b' =>
      simp only [List.map_cons, List.getD, List.get?]
      exact ih b'

/-- Every status of a constant-`pending` list is `pending`. -/
theorem getD_const_pending (l : List String) (t : Nat) :
    (l.map (fun _ => TStatus.pending)).getD t TStatus.pending = TStatus.pending := by
  induction l generalizing t with
  | nil => simp [List.getD]
  | cons x xs ih =>
    cases t with
    | zero => simp [List.getD]
    | succ t' =>
      simp only [List.map_cons, List.getD, List.get?]
      exact ih t'

/-- In the initial state every task is pending. -/
theorem statusOf_init (lines : List String) (b t : Nat) :
    statusOf (initState lines) b t = TStatus.pending := by
  unfold statusOf batchOf initState
  generalize line_sets lines = L
  induction L generalizing b with
  | nil => simp [List.getD]
  | cons x xs ih =>
    cases b with
    | zero =>
      simp only [List.map_cons, List.getD, List.get?]
      exact getD_const_pending x t
    | succ b' =>
      simp only [List.map_cons, List.getD, List.get?]
      exact ih b'

/-- A step never changes the shape (number of batches, batch lengths). -/
theorem step_shape {N : Nat} {m m' : MState} {e : Ev} (h : Step N m e m') :
    m'.batches.length = m.batches.length
    ∧ ∀ b, (batchOf m' b).length = (batchOf m b).length := by
  cases h with
  | disp t hb ht hst hN =>
    refine ⟨by simp [setTask], fun b => ?_⟩
    by_cases hbc : m.cur = b
    · subst hbc
      unfold batchOf setTask
      rw [getD_set_self _ _ _ _ hb]
      simp [batchOf]
    · unfold batchOf setTask
      rw [getD_set_ne _ _ _ _ _ hbc]
  | fin t ht hst =>
    have hb : m.cur < m.batches.length := by
      by_contra hc
      push_neg at hc
      unfold batchOf at ht
      rw [getD_eq_of_le _ _ _ hc] at ht
      simp at ht
    refine ⟨by simp [setTask], fun b => ?_⟩
    by_cases hbc : m.cur = b
    · subst hbc
      unfold batchOf setTask
      rw [getD_set_self _ _ _ _ hb]
      simp [batchOf]
    · unfold batchOf setTask
      rw [getD_set_ne _ _ _ _ _ hbc]
  | adv hb hall => exact ⟨rfl, fun b => rfl⟩

/-- A trace never changes the shape. -/
theorem reach_shape {N : Nat} {s0 : MState} {tr : List Ev} {m : MState}
    (h : Reaches N s0 tr m) :
    m.batches.length = s0.batches.length
    ∧ ∀ b, (batchOf m b).length = (batchOf s0 b).length := by
  induction h with
  | refl => exact ⟨rfl, fun b => rfl⟩
  | snoc m2 m3 tr e hr hs ih =>
    have hstep := step_shape hs
    exact ⟨hstep.1.trans ih.1, fun b => (hstep.2 b).trans (ih.2 b)⟩

/-- The loop index never decreases. -/
theorem step_cur_le {N : Nat} {m m' : MState} {e : Ev} (h : Step N m e m') :
    m.cur ≤ m'.cur := by
  cases h with
  | disp t hb ht hst hN => exact Nat.le_refl _
  | fin t ht hst => exact Nat.le_refl _
  | adv hb hall => exact Nat.le_succ _

/-- A `disp` event always concerns the current batch. -/
theorem step_disp_cur {N : Nat} {m m' : MState} {b t : Nat}
    (h : Step N m (Ev.disp b t) m') : b = m.cur := by
  cases h with
  | disp t hb ht hst hN => rfl

/-- Every batch below the loop index is fully terminal (it was advanced
past only after its join). -/
theorem reach_below_terminal {N : Nat} {s0 : MState} {tr : List Ev} {m : MState}
    (h : Reaches N s0 tr m)
    (h0 : ∀ b t, b < s0.cur → t < (batchOf s0 b).length →
      statusOf s0 b t = TStatus.terminal) :
    ∀ b t, b < m.cur → t < (batchOf m b).length →
      statusOf m b t = TStatus.terminal := by
  induction h with
  | refl => exact h0
  | snoc m2 m3 tr e hr hs ih =>
    intro b t hb ht
    have ih2 := ih
    cases hs with
    | disp t' hb2 ht2 hst2 hN2 =>
      have hb' : b < m2.cur := hb
      have hne : m2.cur ≠ b := ne_of_gt hb'
      have hbatch : batchOf (setTask m2 m2.cur t' TStatus.dispatched) b = batchOf m2 b := by
        unfold batchOf setTask
        exact getD_set_ne _ _ _ _ _ hne
      unfold statusOf
      rw [hbatch]
      rw [hbatch] at ht
      exact ih2 b t hb' ht
    | fin t' ht2 hst2 =>
      have hb' : b < m2.cur := hb
      have hne : m2.cur ≠ b := ne_of_gt hb'
      have hbatch : batchOf (setTask m2 m2.cur t' TStatus.terminal) b = batchOf m2 b := by
        unfold batchOf setTask
        exact getD_set_ne _ _ _ _ _ hne
      unfold statusOf
      rw [hbatch]
      rw [hbatch] at ht
      exact ih2 b t hb' ht
    | adv hb2 hall =>
      have hb' : b < m2.cur + 1 := hb
      have hbatch : batchOf (MState.mk m2.batches (m2.cur + 1)) b = batchOf m2 b := rfl
      rw [hbatch] at ht
      rcases Nat.lt_or_ge b m2.cur with hlt | hge
      · exact ih2 b t hlt ht
      · have hbe : b = m2.cur := by omega
        subst hbe
        unfold statusOf
        exact hall _ (getD_mem _ _ _ ht)

/-- A terminal status can only come from a `fin` event in the trace. -/
theorem reach_terminal_fin {N : Nat} {s0 : MState} {tr : List Ev} {m : MState}
    (h : Reaches N s0 tr m)
    (h0 : ∀ b t, statusOf s0 b t ≠ TStatus.terminal) :
    ∀ b t, statusOf m b t = TStatus.terminal → Ev.fin b t ∈ tr := by
  induction h with
  | refl => exact fun b t hterm => absurd hterm (h0 b t)
  | snoc m2 m3 tr e hr hs ih =>
    intro b t hterm
    have ih2 := ih
    cases hs with
    | disp t' hb2 ht2 hst2 hN2 =>
      refine List.mem_append_left _ (ih2 b t ?_)
      by_cases hbc : m2.cur = b
      · subst hbc
        unfold statusOf batchOf setTask at hterm
        rw [getD_set_self _ _ _ _ hb2] at hterm
        by_cases htc : t' = t
        · subst htc
          rw [getD_set_self _ _ _ _
            (show t' < (m2.batches.getD m2.cur []).length from ht2)] at hterm
          cases hterm
        · unfold statusOf batchOf
          rw [getD_set_ne _ _ _ _ _ htc] at hterm
          exact hterm
      · unfold statusOf batchOf setTask at hterm
        rw [getD_set_ne _ _ _ _ _ hbc] at hterm
        exact hterm
    | fin t' ht2 hst2 =>
      by_cases hbc : m2.cur = b
      · subst hbc
        by_cases htc : t' = t
        · subst htc
          exact List.mem_append_right _ (List.mem_singleton.mpr rfl)
        · refine List.mem_append_left _ (ih2 m2.cur t ?_)
          have hb2 : m2.cur < m2.batches.length := by
            by_contra hc
            push_neg at hc
            unfold batchOf at ht2
            rw [getD_eq_of_le _ _ _ hc] at ht2
            simp at ht2
          unfold statusOf batchOf setTask at hterm
          rw [getD_set_self _ _ _ _ hb2, getD_set_ne _ _ _ _ _ htc] at hterm
          unfold statusOf batchOf
          exact hterm
      · refine List.mem_append_left _ (ih2 b t ?_)
        unfold statusOf batchOf setTask at hterm
        rw [getD_set_ne _ _ _ _ _ hbc] at hterm
        exact hterm
    | adv hb2 hall =>
      exact List.mem_append_left _ (ih2 b t hterm)

/-- Splitting a trace at one of its events. -/
theorem reach_split {N : Nat} {s0 : MState} {tr : List Ev} {m : MState}
    (h : Reaches N s0 tr m) :
    ∀ (tr1 : List Ev) (e : Ev) (tr2 : List Ev), tr = tr1 ++ e :: tr2 →
      ∃ m1 m2, Reaches N s0 tr1 m1 ∧ Step N m1 e m2 := by
  induction h with
  | refl =>
    intro tr1 e tr2 heq
    exact absurd heq.symm (List.append_ne_nil_of_right_ne_nil tr1 (by simp))
  | snoc m2 m3 tr e' hr hs ih =>
    intro tr1 e tr2 heq
    rcases List.eq_nil_or_concat tr2 with rfl | ⟨t2, last, rfl⟩
    · have := snoc_inj heq
      rcases this with ⟨rfl, rfl⟩
      exact ⟨m2, m3, hr, hs⟩
    · rw [List.concat_eq_append,
        show tr1 ++ e :: (t2 ++ [last]) = (tr1 ++ e :: t2) ++ [last] by simp] at heq
      have := snoc_inj heq
      rcases this with ⟨htr, rfl⟩
      exact ih tr1 e t2 htr

/-- The initial status lists have the batch sizes of the task file. -/
theorem batchOf_init_length (lines : List String) (b : Nat) :
    (batchOf (initState lines) b).length = numTasks lines b := by
  unfold batchOf initState numTasks
  exact length_getD_map_statuses (line_sets lines) b

/-! ## Claim C1 -/

/-- Claim C1: in every trace of the batch loop (any task file, any pool
bound `N`, including `N` smaller than a batch), a task of batch `i + 1` can
only be dispatched after every task of batch `i` has produced a terminal
result: every `fin i u` precedes the `disp (i+1) t` in the trace.
Moreover the loop leaves a batch (the `adv` step, i.e. the per-batch
execution call returning) only when every task of the current batch is
terminal. -/
theorem batch_barrier :
    (∀ (lines : List String) (N : Nat) (tr1 tr2 : List Ev) (m : MState)
        (i t u : Nat),
      Reaches N (initState lines) (tr1 ++ Ev.disp (i + 1) t :: tr2) m →
      u < numTasks lines i → Ev.fin i u ∈ tr1)
    ∧ ∀ (N : Nat) (m m' : MState), Step N m Ev.adv m' →
        ∀ st ∈ batchOf m m.cur, st = TStatus.terminal := by
  constructor
  · intro lines N tr1 tr2 m i t u h hu
    obtain ⟨m1, m2, h1, hstep⟩ := reach_split h tr1 (Ev.disp (i + 1) t) tr2 rfl
    have hcur : i + 1 = m1.cur := step_disp_cur hstep
    have hlen : (batchOf m1 i).length = numTasks lines i := by
      rw [(reach_shape h1).2 i, batchOf_init_length]
    have hu' : u < (batchOf m1 i).length := by rw [hlen]; exact hu
    have hterm : statusOf m1 i u = TStatus.terminal :=
      reach_below_terminal h1
        (fun b t hb ht => absurd hb (Nat.not_lt_zero b)) i u (by omega) hu'
    exact reach_terminal_fin h1
      (fun b t => by rw [statusOf_init lines b t]; decide) i u hterm
  · intro N m m' hstep
    cases hstep with
    | adv hb hall => exact hall

/-- Witness for C1 on the task file `a`, `wait`, `b` with pool bound 1: in
the trace that dispatches and finishes the first batch's task, advances,
and dispatches the second batch's task, the `fin` of batch 0 precedes the
`disp` of batch 1. -/
theorem batch_barrier_witness :
    Ev.fin 0 0 ∈ ([Ev.disp 0 0, Ev.fin 0 0, Ev.adv] : List Ev) :=
  batch_barrier.1 ["a", "wait", "b"] 1 [Ev.disp 0 0, Ev.fin 0 0, Ev.adv] [] _ 0 0 0
    (Reaches.snoc _ _ _ _ _
      (Reaches.snoc _ _ _ _ _
        (Reaches.snoc _ _ _ _ _
          (Reaches.snoc _ _ _ _ _ (Reaches.refl _)
            (Step.disp _ 0 (by decide) (by decide) (by decide) (by decide)))
          (Step.fin _ 0 (by decide) (by decide)))
        (Step.adv _ (by decide) (by decide)))
      (Step.disp _ 0 (by decide) (by decide) (by decide) (by decide)))
    (by decide)
